import Mathlib

/-!
Verification of the AudioEncrypt payload codec.

This file embeds the core of the audio-to-image encryption script
(`encryptAudioToImage` / `decryptImageToAudio` and their helpers) as
executable Lean definitions and proves the specified properties about
them.  Bytes are modelled as natural numbers; byte buffers as
`List Nat`; 32-bit float samples as their 32-bit bit patterns
(`Nat < 2^32`).  The browser crypto primitives (`crypto.subtle`
PBKDF2 and AES-GCM) are not part of the repository source; they are
modelled from the spec as ideal, injective primitives (see the doc
comments on `deriveKey`, `gcmEncrypt`, `gcmDecrypt`).
-/

namespace AudioEncrypt

/-! ### Constants (source lines 4-9) -/

def SALT_LENGTH : Nat := 16

def IV_LENGTH : Nat := 12

def CIPHERTEXT_LENGTH_BYTES : Nat := 4

def SAMPLE_RATE_BYTES : Nat := 4

def HEADER_LENGTH : Nat := SALT_LENGTH + IV_LENGTH + CIPHERTEXT_LENGTH_BYTES + SAMPLE_RATE_BYTES

def BYTES_PER_PIXEL : Nat := 3

/-! ### Password strength (source `checkPasswordStrength`, lines 42-53) -/

/-- `/[a-z]/.test` on one character: an ASCII lowercase letter. -/
def isLowercaseChar (c : Char) : Bool := decide (97 ≤ c.toNat ∧ c.toNat ≤ 122)

/-- `/[A-Z]/.test` on one character: an ASCII uppercase letter. -/
def isUppercaseChar (c : Char) : Bool := decide (65 ≤ c.toNat ∧ c.toNat ≤ 90)

/-- `/[0-9]/.test` on one character: an ASCII digit. -/
def isDigitChar (c : Char) : Bool := decide (48 ≤ c.toNat ∧ c.toNat ≤ 57)

/-- `/[^A-Za-z0-9]/.test` on one character: anything that is not an
ASCII letter or digit. -/
def isNonAlphanumericChar (c : Char) : Bool :=
  !(isLowercaseChar c || isUppercaseChar c || isDigitChar c)

/-- Result record of `checkPasswordStrength` (`{score, text, class}`;
the `class` field is called `cls` because `class` is a Lean keyword). -/
structure StrengthResult where
  score : Nat
  text : String
  cls : String
  deriving DecidableEq, Repr

/-- The running `score` of `checkPasswordStrength` after the five
`if (...) score++` statements (source lines 44-49): it starts at 1 and
adds one point per satisfied criterion. -/
def passwordScore (password : List Char) : Nat :=
  1 + (if 12 ≤ password.length then 1 else 0)
    + (if password.any isLowercaseChar then 1 else 0)
    + (if password.any isUppercaseChar then 1 else 0)
    + (if password.any isDigitChar then 1 else 0)
    + (if password.any isNonAlphanumericChar then 1 else 0)

/-- Source `checkPasswordStrength` (lines 42-53).  A password is a list
of characters; `password.length` is the string length. -/
def checkPasswordStrength (password : List Char) : StrengthResult :=
  if password.length < 6 then ⟨0, "Too Short", "weak"⟩
  else
    let score := passwordScore password
    if score < 2 then ⟨score, "Weak", "weak"⟩
    else if score < 5 then ⟨score, "Medium", "medium"⟩
    else ⟨score, "Strong", "strong"⟩

/-! ### Spec-modelled crypto primitives

`deriveKey` (source lines 59-70) and the AES-GCM calls
(`crypto.subtle.encrypt` / `crypto.subtle.decrypt`, source lines 86 and
162) delegate to the browser's WebCrypto implementation, which is not
part of the repository.  They are modelled from the spec as ideal
primitives below.  The auxiliary `encodeList` is an injective encoding
of byte lists into `Nat`, used to build an idealised authentication
tag. -/

/-- Injective encoding of a list of naturals as one natural number. -/
def encodeList : List Nat → Nat
  | [] => 0
  | b :: rest => Nat.pair b (encodeList rest) + 1

/-- A derived key is determined by (passphrase, salt). -/
abbrev Key := List Char × List Nat

/-- Modelled from the spec: `deriveKey` (source lines 59-70) calls
WebCrypto PBKDF2-SHA-256 with 100,000 iterations, which is absent from
the source.  Per spec §4.1 it is a deterministic function of
(passphrase, salt) producing a key used only by the cipher; it is
modelled as the ideal injective derivation, i.e. the pair itself. -/
def deriveKey (passphrase : List Char) (salt : List Nat) : Key :=
  (passphrase, salt)

/-- Injective encoding of a key into `Nat`. -/
def encodeKey (k : Key) : Nat :=
  Nat.pair (encodeList (k.1.map Char.toNat)) (encodeList k.2)

/-- Injective encoding of the (key, nonce, plaintext) triple that an
ideal authentication tag commits to. -/
def gcmTagSeed (key : Key) (iv plaintext : List Nat) : Nat :=
  Nat.pair (encodeKey key) (Nat.pair (encodeList iv) (encodeList plaintext))

/-- Modelled from the spec: the 16-byte AES-GCM authentication tag.
Per spec §4.2 the tag is a fixed-size value appended by the primitive
that commits to key, nonce and plaintext; it is modelled as an ideal
commitment: one slot holding an injective encoding of the triple
(shifted by 256 so it can never collide with a plaintext byte value),
padded to the tag length of 16. -/
def gcmTag (key : Key) (iv plaintext : List Nat) : List Nat :=
  (gcmTagSeed key iv plaintext + 256) :: List.replicate 15 0

/-- Modelled from the spec: `crypto.subtle.encrypt({name:'AES-GCM'},..)`
(source line 86), absent from the source.  Per spec §4.2 the ciphertext
is the plaintext plus a fixed 16-byte authentication tag appended by
the primitive. -/
def gcmEncrypt (key : Key) (iv plaintext : List Nat) : List Nat :=
  plaintext ++ gcmTag key iv plaintext

/-- Modelled from the spec: `crypto.subtle.decrypt({name:'AES-GCM'},..)`
(source line 162), absent from the source.  Per spec §4.2 decryption
returns the plaintext for an authentic (key, nonce, ciphertext) triple
and signals `AuthenticationFailure` (here `none`) for a tampered,
truncated, or wrongly keyed ciphertext. -/
def gcmDecrypt (key : Key) (iv cipher : List Nat) : Option (List Nat) :=
  if cipher.length < 16 then none
  else
    let body := cipher.take (cipher.length - 16)
    if cipher.drop (cipher.length - 16) = gcmTag key iv body then some body else none

/-! ### 32-bit big-endian header fields

`headerView.setUint32(off, v, false)` writes the 4 bytes of
`v mod 2^32` most-significant first; `headerView.getUint32(off, false)`
reads them back.  (16777216 = 2^24, 65536 = 2^16, 4294967296 = 2^32.) -/

/-- The four bytes written by `setUint32(_, v, false)` (big-endian). -/
def be32 (v : Nat) : List Nat :=
  [v / 16777216 % 256, v / 65536 % 256, v / 256 % 256, v % 256]

/-- `getUint32(off, false)` on a byte buffer: big-endian read of four
bytes starting at `off` (absent positions read as 0). -/
def readBE32 (bytes : List Nat) (off : Nat) : Nat :=
  bytes.getD off 0 * 16777216 + bytes.getD (off + 1) 0 * 65536 +
    bytes.getD (off + 2) 0 * 256 + bytes.getD (off + 3) 0

/-! ### Float32 sample buffers

`channelData.buffer` reinterprets a `Float32Array` as bytes
(little-endian, 4 bytes per sample); `new Float32Array(buffer)` is the
inverse.  A sample is modelled by its 32-bit bit pattern. -/

/-- The four little-endian bytes of one 32-bit sample bit pattern. -/
def sampleToBytes (s : Nat) : List Nat :=
  [s % 256, s / 256 % 256, s / 65536 % 256, s / 16777216 % 256]

/-- The byte buffer underlying a `Float32Array` of samples. -/
def samplesToBytes (samples : List Nat) : List Nat :=
  samples.flatMap sampleToBytes

/-- `new Float32Array(buffer)`: group bytes in fours, little-endian
(the caller guards that the byte length is a multiple of 4). -/
def bytesToSamples : List Nat → List Nat
  | b0 :: b1 :: b2 :: b3 :: rest =>
      (b0 + b1 * 256 + b2 * 65536 + b3 * 16777216) :: bytesToSamples rest
  | _ => []

/-! ### Payload assembly (source lines 89-99) -/

/-- Source lines 89-99: the 36-byte header (salt, iv, big-endian
ciphertext length, big-endian sample rate) followed by the ciphertext.
`header.set(salt, 0)` / `header.set(iv, SALT_LENGTH)` with the
pipeline's full-length 16-byte salt and 12-byte iv is exactly
concatenation. -/
def assemblePayload (salt iv cipherBytes : List Nat) (sampleRate : Nat) : List Nat :=
  salt ++ iv ++ be32 cipherBytes.length ++ be32 sampleRate ++ cipherBytes

/-! ### Pixel grid (source lines 101-118 and 128-139) -/

/-- An RGBA canvas image: `data` is the flat `imgData.data` buffer of
length `width * height * 4`. -/
structure ImageGrid where
  width : Nat
  height : Nat
  data : List Nat
  deriving DecidableEq, Repr

/-- `Math.ceil(totalDataLength / BYTES_PER_PIXEL)` (source line 101). -/
def numPixelsRequired (totalDataLength : Nat) : Nat :=
  (totalDataLength + (BYTES_PER_PIXEL - 1)) / BYTES_PER_PIXEL

/-- Helper scan for `ceilSqrt`: starting at candidate `m`, return the
least `m' ≥ m` with `n ≤ m' * m'` (the fuel is a structural-recursion
bound; `ceilSqrt` supplies enough of it). -/
def ceilSqrtLoop (n : Nat) : Nat → Nat → Nat
  | 0, m => m
  | fuel + 1, m => if n ≤ m * m then m else ceilSqrtLoop n fuel (m + 1)

/-- `Math.ceil(Math.sqrt(n))` on a natural number: the least `m` with
`n ≤ m * m` (see `ceilSqrt_spec`). -/
def ceilSqrt (n : Nat) : Nat := ceilSqrtLoop n (n + 1) 0

/-- The packing loop (source lines 110-117) produces, at flat index
`i` of `imgData.data` (pixel `i / 4`, channel `i % 4`):
- channels 0-2: the payload byte at position `3 * (i / 4) + i % 4`
  (the running `payloadIdx`), or 0 once the payload is exhausted;
- channel 3 (alpha): 255 for every pixel the loop reaches.  The loop
  `break`s after pixel `numPixelsRequired - 1` once the payload is
  exhausted (which is exactly where `payloadIdx` reaches the payload
  length), so later pixels keep the `createImageData` zero
  initialisation, alpha included. -/
def packData (payload : List Nat) (pixelCount : Nat) : List Nat :=
  List.ofFn fun i : Fin (pixelCount * 4) =>
    if i.val % 4 = 3 then
      (if i.val / 4 < numPixelsRequired payload.length then 255 else 0)
    else
      (if 3 * (i.val / 4) + i.val % 4 < payload.length
        then payload.getD (3 * (i.val / 4) + i.val % 4) 0 else 0)

/-- `const w = Math.ceil(Math.sqrt(numPixelsRequired))` (source line 102). -/
def gridWidth (payload : List Nat) : Nat :=
  ceilSqrt (numPixelsRequired payload.length)

/-- `const h = Math.ceil(numPixelsRequired / w)` (source line 103).
(For an empty payload `w = 0` and JS computes `h = ceil(0/0) = NaN`,
which coerces to canvas height 0; Lean's `0 / 0 = 0` agrees.) -/
def gridHeight (payload : List Nat) : Nat :=
  (numPixelsRequired payload.length + (gridWidth payload - 1)) / gridWidth payload

/-- Source lines 101-118: the canvas dimensions and packed pixel data. -/
def packImage (payload : List Nat) : ImageGrid :=
  ⟨gridWidth payload, gridHeight payload,
    packData payload (gridWidth payload * gridHeight payload)⟩

/-- Source lines 132-139: read `maxPossibleDataBytes =
floor(data.length / 4) * 3` bytes, byte `k` coming from pixel `k / 3`,
channel `k % 3` (R, G, B in row-major order, alpha skipped). -/
def unpackBytes (g : ImageGrid) : List Nat :=
  List.ofFn fun i : Fin (g.data.length / 4 * 3) =>
    g.data.getD (4 * (i.val / 3) + i.val % 3) 0

/-! ### The two pipelines (source lines 72-122 and 124-178) -/

/-- Source `encryptAudioToImage` (lines 72-122), with the ambient
inputs made explicit: the passphrase (from the key input field) and
the fresh random `salt` and `iv` are parameters.  `samples` is
`audioBuffer.getChannelData(0)` as 32-bit bit patterns and
`sampleRate` is `audioBuffer.sampleRate`. -/
def encryptAudioToImage (pass : List Char) (samples : List Nat) (sampleRate : Nat)
    (salt iv : List Nat) : Except String ImageGrid :=
  if pass = [] then .error "Secret key is required"
  else if (checkPasswordStrength pass).score < 2 then
    .error "Password is too weak. Use at least 8 characters with mixed case, numbers, and symbols."
  else
    let payloadRaw := samplesToBytes samples
    let key := deriveKey pass salt
    let cipherBytes := gcmEncrypt key iv payloadRaw
    let fullPayload := assemblePayload salt iv cipherBytes sampleRate
    .ok (packImage fullPayload)

/-- The header/bounds validation stage of `decryptImageToAudio`
(source lines 141-157), the spec's `PayloadCodec.parse`: yields
(salt, iv, ciphertextLength, sampleRate, ciphertext). -/
def parsePayload (bytes : List Nat) :
    Except String (List Nat × List Nat × Nat × Nat × List Nat) :=
  if bytes.length < HEADER_LENGTH then
    .error "Corrupted data: Image data too short to contain header."
  else
    let salt := bytes.take SALT_LENGTH
    let iv := (bytes.drop SALT_LENGTH).take IV_LENGTH
    let ciphertextLength := readBE32 bytes (SALT_LENGTH + IV_LENGTH)
    let sampleRate := readBE32 bytes (SALT_LENGTH + IV_LENGTH + CIPHERTEXT_LENGTH_BYTES)
    let ciphertextEndOffset := HEADER_LENGTH + ciphertextLength
    if bytes.length < ciphertextEndOffset then
      .error "Corrupted data: Declared ciphertext length exceeds available data."
    else
      .ok (salt, iv, ciphertextLength, sampleRate,
        (bytes.drop HEADER_LENGTH).take ciphertextLength)

/-- Source `decryptImageToAudio` (lines 124-178): unpack the pixels,
parse the header, re-derive the key, AES-GCM decrypt, then rebuild the
sample buffer.  Mirrors the source's order of effects exactly: the
`new Float32Array` construction (line 167, which throws a `RangeError`
when the plaintext byte length is not a multiple of 4) and the sample
rate check (lines 170-172) both happen only AFTER decryption; the
`ac.createBuffer` call (line 174) throws for a zero-length buffer.
On success returns the samples (32-bit bit patterns) and sample rate. -/
def decryptImageToAudio (pass : List Char) (g : ImageGrid) :
    Except String (List Nat × Nat) :=
  if pass = [] then .error "Secret key is required"
  else
    match parsePayload (unpackBytes g) with
    | .error e => .error e
    | .ok (salt, iv, _ciphertextLength, sampleRate, cipher) =>
      match gcmDecrypt (deriveKey pass salt) iv cipher with
      | none => .error "Decryption failed - incorrect key or corrupted data."
      | some raw =>
        if raw.length % 4 ≠ 0 then
          .error "RangeError: byte length of Float32Array should be a multiple of 4"
        else if sampleRate = 0 ∨ 192000 < sampleRate then
          .error "Invalid sample rate in image. Data might be corrupted."
        else if raw.length / 4 = 0 then
          .error "NotSupportedError: cannot create an AudioBuffer with 0 frames"
        else
          .ok (bytesToSamples raw, sampleRate)

/-- Decidable equality for `Except` results, so concrete pipeline runs
can be checked by `decide`. -/
instance instDecEqExcept {ε α : Type} [DecidableEq ε] [DecidableEq α] :
    DecidableEq (Except ε α) := fun x y =>
  match x, y with
  | .error a, .error b =>
    if h : a = b then .isTrue (by rw [h]) else .isFalse (fun he => h (Except.error.inj he))
  | .error _, .ok _ => .isFalse (fun he => Except.noConfusion he)
  | .ok _, .error _ => .isFalse (fun he => Except.noConfusion he)
  | .ok a, .ok b =>
    if h : a = b then .isTrue (by rw [h]) else .isFalse (fun he => h (Except.ok.inj he))

/-! ### Helper list lemmas -/

theorem take_set_of_le {α : Type} (l : List α) (i m : Nat) (a : α) (h : m ≤ i) :
    (l.set i a).take m = l.take m := by
  apply List.ext_getElem (by simp)
  intro j h1 h2
  simp only [List.length_take, List.length_set, Nat.lt_min] at h1 h2
  simp only [List.getElem_take, List.getElem_set]
  rw [if_neg (by omega)]

theorem drop_set_of_lt {α : Type} (l : List α) (i m : Nat) (a : α) (h : i < m) :
    (l.set i a).drop m = l.drop m := by
  apply List.ext_getElem (by simp)
  intro j h1 h2
  simp only [List.getElem_drop, List.getElem_set]
  rw [if_neg (by omega)]

theorem getD_of_length_le {α : Type} [Inhabited α] (l : List α) (d : α) (n : Nat)
    (h : l.length ≤ n) : l.getD n d = d := by
  simp [List.getD_eq_getElem?_getD, List.getElem?_eq_none h]

theorem getD_drop {α : Type} [Inhabited α] (l : List α) (k j : Nat) (d : α) :
    (l.drop k).getD j d = l.getD (k + j) d := by
  simp [List.getD_eq_getElem?_getD, List.getElem?_drop]

theorem getD_take {α : Type} [Inhabited α] (l : List α) (m j : Nat) (d : α) (h : j < m) :
    (l.take m).getD j d = l.getD j d := by
  simp [List.getD_eq_getElem?_getD, List.getElem?_take, h]

/-! ### Injectivity of the ideal-tag encodings -/

theorem encodeList_inj {l1 l2 : List Nat} (h : encodeList l1 = encodeList l2) : l1 = l2 := by
  induction l1 generalizing l2 with
  | nil =>
    cases l2 with
    | nil => rfl
    | cons b t => simp [encodeList] at h
  | cons a t ih =>
    cases l2 with
    | nil => simp [encodeList] at h
    | cons b t2 =>
      simp only [encodeList] at h
      obtain ⟨hb, ht⟩ := Nat.pair_eq_pair.mp (Nat.add_right_cancel h)
      rw [hb, ih ht]

theorem charList_toNat_inj {l1 l2 : List Char}
    (h : l1.map Char.toNat = l2.map Char.toNat) : l1 = l2 := by
  have hinj : Function.Injective Char.toNat := by
    intro a b hab
    apply Char.eq_of_val_eq
    exact UInt32.eq_of_val_eq (Fin.ext hab)
  exact List.map_injective_iff.mpr hinj h

theorem encodeKey_inj {k1 k2 : Key} (h : encodeKey k1 = encodeKey k2) : k1 = k2 := by
  obtain ⟨h1, h2⟩ := Nat.pair_eq_pair.mp h
  obtain ⟨p1, s1⟩ := k1
  obtain ⟨p2, s2⟩ := k2
  simp only [Prod.mk.injEq]
  exact ⟨charList_toNat_inj (encodeList_inj h1), encodeList_inj h2⟩

theorem gcmTagSeed_inj {k1 k2 : Key} {n1 n2 p1 p2 : List Nat}
    (h : gcmTagSeed k1 n1 p1 = gcmTagSeed k2 n2 p2) :
    k1 = k2 ∧ n1 = n2 ∧ p1 = p2 := by
  obtain ⟨hk, hrest⟩ := Nat.pair_eq_pair.mp h
  obtain ⟨hn, hp⟩ := Nat.pair_eq_pair.mp hrest
  exact ⟨encodeKey_inj hk, encodeList_inj hn, encodeList_inj hp⟩

theorem length_gcmTag (k : Key) (n p : List Nat) : (gcmTag k n p).length = 16 := by
  simp [gcmTag]

theorem gcmTag_inj {k1 k2 : Key} {n1 n2 p1 p2 : List Nat}
    (h : gcmTag k1 n1 p1 = gcmTag k2 n2 p2) : k1 = k2 ∧ n1 = n2 ∧ p1 = p2 := by
  simp only [gcmTag, List.cons.injEq] at h
  exact gcmTagSeed_inj (Nat.add_right_cancel h.1)

/-! ### AEAD lemmas -/

theorem length_gcmEncrypt (k : Key) (n p : List Nat) :
    (gcmEncrypt k n p).length = p.length + 16 := by
  simp [gcmEncrypt, length_gcmTag]

theorem gcmEncrypt_inj {k1 k2 : Key} {n1 n2 p1 p2 : List Nat}
    (h : gcmEncrypt k1 n1 p1 = gcmEncrypt k2 n2 p2) :
    k1 = k2 ∧ n1 = n2 ∧ p1 = p2 := by
  have hlen : p1.length = p2.length := by
    have h1 := length_gcmEncrypt k1 n1 p1
    have h2 := length_gcmEncrypt k2 n2 p2
    rw [h] at h1
    omega
  obtain ⟨hp, htag⟩ := List.append_inj h hlen
  obtain ⟨hk, hn, _⟩ := gcmTag_inj htag
  exact ⟨hk, hn, hp⟩

theorem gcmDecrypt_gcmEncrypt (k : Key) (n p : List Nat) :
    gcmDecrypt k n (gcmEncrypt k n p) = some p := by
  have hlen := length_gcmEncrypt k n p
  have htake : (gcmEncrypt k n p).take ((gcmEncrypt k n p).length - 16) = p := by
    rw [hlen, Nat.add_sub_cancel]
    exact List.take_left' rfl
  have hdrop : (gcmEncrypt k n p).drop ((gcmEncrypt k n p).length - 16) = gcmTag k n p := by
    rw [hlen, Nat.add_sub_cancel]
    exact List.drop_left' rfl
  simp only [gcmDecrypt]
  rw [if_neg (by omega), htake, hdrop, if_pos rfl]

theorem gcmDecrypt_sound {k : Key} {n c p : List Nat}
    (h : gcmDecrypt k n c = some p) : c = gcmEncrypt k n p := by
  simp only [gcmDecrypt] at h
  split at h
  · simp at h
  · split at h
    · rename_i htag
      have hp : c.take (c.length - 16) = p := Option.some.inj h
      rw [hp] at htag
      calc c = c.take (c.length - 16) ++ c.drop (c.length - 16) :=
            (List.take_append_drop _ _).symm
        _ = p ++ gcmTag k n p := by rw [hp, htag]
        _ = gcmEncrypt k n p := rfl
    · simp at h

theorem gcmDecrypt_flip (k : Key) (n p : List Nat) (i b : Nat)
    (hi : i < (gcmEncrypt k n p).length) (hb : b ≠ (gcmEncrypt k n p).getD i 0) :
    gcmDecrypt k n ((gcmEncrypt k n p).set i b) = none := by
  set c := gcmEncrypt k n p with hc
  cases h : gcmDecrypt k n (c.set i b) with
  | none => rfl
  | some q =>
    exfalso
    have hsound := gcmDecrypt_sound h
    have hclen : c.length = p.length + 16 := length_gcmEncrypt k n p
    have hqlen : q.length = p.length := by
      have h1 : (c.set i b).length = c.length := List.length_set ..
      have h2 := length_gcmEncrypt k n q
      rw [← hsound] at h2
      omega
    have hqp : q = p := by
      rcases Nat.lt_or_ge i p.length with hcase | hcase
      · -- flip inside the body: the tags coincide
        have hd1 : (c.set i b).drop p.length = c.drop p.length :=
          drop_set_of_lt _ _ _ _ hcase
        have hd2 : c.drop p.length = gcmTag k n p := by
          rw [hc, gcmEncrypt]
          exact List.drop_left' rfl
        have hd3 : (c.set i b).drop p.length = gcmTag k n q := by
          rw [hsound, ← hqlen, gcmEncrypt]
          exact List.drop_left' rfl
        have : gcmTag k n q = gcmTag k n p := by rw [← hd3, hd1, hd2]
        exact (gcmTag_inj this).2.2
      · -- flip inside the tag: the bodies coincide
        have ht1 : (c.set i b).take p.length = c.take p.length :=
          take_set_of_le _ _ _ _ hcase
        have ht2 : c.take p.length = p := by
          rw [hc, gcmEncrypt]
          exact List.take_left' rfl
        have ht3 : (c.set i b).take p.length = q := by
          rw [hsound, ← hqlen, gcmEncrypt]
          exact List.take_left' rfl
        rw [← ht3, ht1, ht2]
    have hcc : c.set i b = c := by rw [hsound, hqp]
    have : (c.set i b).getD i 0 = b := by
      rw [List.getD_eq_getElem _ _ (by simpa using hi)]
      simp [List.getElem_set]
    rw [hcc] at this
    exact hb this.symm

theorem gcmDecrypt_truncate (k : Key) (n p : List Nat) (m : Nat)
    (hm : m < (gcmEncrypt k n p).length) (hp : ∀ b ∈ p, b < 256) :
    gcmDecrypt k n ((gcmEncrypt k n p).take m) = none := by
  have hclen : (gcmEncrypt k n p).length = p.length + 16 := length_gcmEncrypt k n p
  have htlen : ((gcmEncrypt k n p).take m).length = m := by
    simp only [List.length_take]
    omega
  rcases Nat.lt_or_ge m 16 with hcase | hcase
  · unfold gcmDecrypt
    rw [htlen, if_pos hcase]
  · simp only [gcmDecrypt]
    rw [htlen, if_neg (by omega)]
    rw [if_neg]
    intro heq
    -- compare the first element of the candidate tag region
    have hm16 : m - 16 < p.length := by omega
    have h0 := congrArg (fun l => l.getD 0 0) heq
    simp only [getD_drop, Nat.add_zero] at h0
    rw [getD_take _ _ _ _ (by omega)] at h0
    have hlhs : (gcmEncrypt k n p).getD (m - 16) 0 = p.getD (m - 16) 0 := by
      simp only [gcmEncrypt]
      exact List.getD_append _ _ _ _ hm16
    have hrhs : (gcmTag k n (((gcmEncrypt k n p).take m).take (m - 16))).getD 0 0 =
        gcmTagSeed k n (((gcmEncrypt k n p).take m).take (m - 16)) + 256 := by
      simp [gcmTag]
    rw [hlhs, hrhs] at h0
    have hbyte : p.getD (m - 16) 0 < 256 := by
      rw [List.getD_eq_getElem _ _ hm16]
      exact hp _ (List.getElem_mem hm16)
    omega

theorem gcmDecrypt_wrong_key (k1 k2 : Key) (n1 n2 p : List Nat)
    (h : k1 ≠ k2 ∨ n1 ≠ n2) :
    gcmDecrypt k2 n2 (gcmEncrypt k1 n1 p) = none := by
  cases hdec : gcmDecrypt k2 n2 (gcmEncrypt k1 n1 p) with
  | none => rfl
  | some q =>
    exfalso
    obtain ⟨hk, hn, _⟩ := gcmEncrypt_inj (gcmDecrypt_sound hdec)
    rcases h with h | h
    · exact h hk
    · exact h hn

/-! ### Grid geometry lemmas -/

theorem le_three_mul_numPixelsRequired (N : Nat) : N ≤ 3 * numPixelsRequired N := by
  simp only [numPixelsRequired, BYTES_PER_PIXEL]
  omega

theorem ceilSqrtLoop_ge (n : Nat) : ∀ (fuel m : Nat), m ≤ ceilSqrtLoop n fuel m := by
  intro fuel
  induction fuel with
  | zero => intro m; exact Nat.le_refl m
  | succ fuel ih =>
    intro m
    simp only [ceilSqrtLoop]
    split
    · exact Nat.le_refl m
    · exact Nat.le_trans (Nat.le_succ m) (ih (m + 1))

theorem ceilSqrtLoop_sq (n : Nat) : ∀ (fuel m : Nat), n ≤ (m + fuel) * (m + fuel) →
    n ≤ ceilSqrtLoop n fuel m * ceilSqrtLoop n fuel m := by
  intro fuel
  induction fuel with
  | zero => intro m h; simpa using h
  | succ fuel ih =>
    intro m h
    simp only [ceilSqrtLoop]
    split
    · assumption
    · exact ih (m + 1) (by rw [show m + 1 + fuel = m + (fuel + 1) by omega]; exact h)

theorem ceilSqrtLoop_least (n : Nat) : ∀ (fuel m : Nat), (∀ j, j < m → ¬ n ≤ j * j) →
    ∀ j, n ≤ j * j → ceilSqrtLoop n fuel m ≤ j := by
  intro fuel
  induction fuel with
  | zero =>
    intro m hm j hj
    simp only [ceilSqrtLoop]
    by_contra hlt
    exact hm j (by omega) hj
  | succ fuel ih =>
    intro m hm j hj
    simp only [ceilSqrtLoop]
    split
    · by_contra hlt
      exact hm j (by omega) hj
    · rename_i hno
      refine ih (m + 1) ?_ j hj
      intro j2 hj2
      rcases Nat.lt_or_ge j2 m with hc | hc
      · exact hm j2 hc
      · have : j2 = m := by omega
        rw [this]
        exact hno

/-- `ceilSqrt n` is the ceiling of the square root: the least `m` with
`n ≤ m * m`. -/
theorem ceilSqrt_spec (n : Nat) :
    n ≤ ceilSqrt n * ceilSqrt n ∧ ∀ m, n ≤ m * m → ceilSqrt n ≤ m := by
  constructor
  · refine ceilSqrtLoop_sq n (n + 1) 0 ?_
    have h1 : n + 1 ≤ (n + 1) * (n + 1) := Nat.le_mul_of_pos_left (n + 1) (by omega)
    simpa using Nat.le_trans (Nat.le_succ n) h1
  · intro m hm
    exact ceilSqrtLoop_least n (n + 1) 0 (by omega) m hm

theorem ceilSqrt_pos {P : Nat} (h : 0 < P) : 0 < ceilSqrt P := by
  have hspec := (ceilSqrt_spec P).1
  by_contra h0
  have : ceilSqrt P = 0 := by omega
  rw [this] at hspec
  omega

theorem le_mul_ceilDiv (P w : Nat) (hw : 0 < w) : P ≤ w * ((P + (w - 1)) / w) := by
  have h := Nat.div_add_mod (P + (w - 1)) w
  have hr : (P + (w - 1)) % w < w := Nat.mod_lt _ hw
  omega

theorem numPixels_le_grid (P : Nat) :
    P ≤ ceilSqrt P * ((P + (ceilSqrt P - 1)) / ceilSqrt P) := by
  rcases Nat.eq_zero_or_pos P with h0 | h0
  · omega
  · exact le_mul_ceilDiv P (ceilSqrt P) (ceilSqrt_pos h0)

/-! ### Big-endian field lemmas -/

theorem length_be32 (v : Nat) : (be32 v).length = 4 := by
  simp [be32]

theorem readBE32_append_be32 (pre : List Nat) (v : Nat) (post : List Nat) :
    readBE32 (pre ++ (be32 v ++ post)) pre.length = v % 4294967296 := by
  have hget : ∀ j : Nat, (pre ++ (be32 v ++ post)).getD (pre.length + j) 0 =
      (be32 v ++ post).getD j 0 := by
    intro j
    rw [List.getD_append_right _ _ _ _ (Nat.le_add_right _ _), Nat.add_sub_cancel_left]
  have h0 := hget 0
  have h1 := hget 1
  have h2 := hget 2
  have h3 := hget 3
  rw [Nat.add_zero] at h0
  simp only [readBE32, h1, h2, h3]
  rw [h0]
  have e0 : (be32 v ++ post).getD 0 0 = v / 16777216 % 256 := by simp [be32]
  have e1 : (be32 v ++ post).getD 1 0 = v / 65536 % 256 := by simp [be32]
  have e2 : (be32 v ++ post).getD 2 0 = v / 256 % 256 := by simp [be32]
  have e3 : (be32 v ++ post).getD 3 0 = v % 256 := by simp [be32]
  rw [e0, e1, e2, e3]
  omega

/-! ### Sample buffer lemmas -/

theorem length_samplesToBytes (samples : List Nat) :
    (samplesToBytes samples).length = 4 * samples.length := by
  induction samples with
  | nil => rfl
  | cons s t ih =>
    simp only [samplesToBytes, List.flatMap_cons, List.length_append] at *
    simp [sampleToBytes, ih]
    omega

theorem bytesToSamples_samplesToBytes (samples : List Nat)
    (h : ∀ s ∈ samples, s < 4294967296) :
    bytesToSamples (samplesToBytes samples) = samples := by
  induction samples with
  | nil => rfl
  | cons s t ih =>
    have hs : s < 4294967296 := h s (by simp)
    have ht : ∀ x ∈ t, x < 4294967296 := fun x hx => h x (by simp [hx])
    show bytesToSamples ((s :: t).flatMap sampleToBytes) = s :: t
    rw [List.flatMap_cons]
    simp only [sampleToBytes, List.cons_append, List.nil_append, List.append_eq,
      bytesToSamples]
    have harg : bytesToSamples (t.flatMap sampleToBytes) = t := ih ht
    rw [harg]
    congr 1
    omega

/-! ### Pixel pack/unpack lemmas -/

theorem length_packData (payload : List Nat) (m : Nat) :
    (packData payload m).length = m * 4 := by
  simp [packData]

theorem packData_getD (payload : List Nat) (m j c : Nat) (hj : j < m) (hc : c < 3) :
    (packData payload m).getD (4 * j + c) 0 =
      if 3 * j + c < payload.length then payload.getD (3 * j + c) 0 else 0 := by
  have hidx : 4 * j + c < (packData payload m).length := by
    rw [length_packData]
    omega
  rw [List.getD_eq_getElem _ _ hidx]
  simp only [packData, List.getElem_ofFn]
  rw [show (4 * j + c) % 4 = c by omega, show (4 * j + c) / 4 = j by omega]
  rw [if_neg (by omega)]

theorem packData_alpha_getD (payload : List Nat) (m j : Nat) (hj : j < m) :
    (packData payload m).getD (4 * j + 3) 0 =
      if j < numPixelsRequired payload.length then 255 else 0 := by
  have hidx : 4 * j + 3 < (packData payload m).length := by
    rw [length_packData]
    omega
  rw [List.getD_eq_getElem _ _ hidx]
  simp only [packData, List.getElem_ofFn]
  rw [show (4 * j + 3) % 4 = 3 by omega, show (4 * j + 3) / 4 = j by omega]
  rw [if_pos rfl]

theorem packImage_width (payload : List Nat) :
    (packImage payload).width = gridWidth payload := rfl

theorem packImage_height (payload : List Nat) :
    (packImage payload).height = gridHeight payload := rfl

theorem packImage_data (payload : List Nat) :
    (packImage payload).data = packData payload (gridWidth payload * gridHeight payload) := by
  unfold packImage
  rfl

theorem numPixels_le_area (payload : List Nat) :
    numPixelsRequired payload.length ≤ gridWidth payload * gridHeight payload := by
  have h2 := numPixels_le_grid (numPixelsRequired payload.length)
  simp only [gridWidth, gridHeight]
  exact h2

theorem packImage_capacity (payload : List Nat) :
    payload.length ≤ gridWidth payload * gridHeight payload * 3 := by
  have h1 := le_three_mul_numPixelsRequired payload.length
  have h2 := numPixels_le_area payload
  generalize gridWidth payload * gridHeight payload = A at *
  omega

theorem packImage_data_length (payload : List Nat) :
    (packImage payload).data.length = gridWidth payload * gridHeight payload * 4 := by
  rw [packImage_data, length_packData]

theorem length_unpackBytes (g : ImageGrid) :
    (unpackBytes g).length = g.data.length / 4 * 3 := by
  simp [unpackBytes]

theorem unpackBytes_packImage (payload : List Nat) :
    unpackBytes (packImage payload) =
      payload ++ List.replicate
        (gridWidth payload * gridHeight payload * 3 - payload.length) 0 := by
  have hcap := packImage_capacity payload
  have hdlen := packImage_data_length payload
  have hulen : (unpackBytes (packImage payload)).length =
      gridWidth payload * gridHeight payload * 3 := by
    rw [length_unpackBytes, hdlen]
    generalize gridWidth payload * gridHeight payload = A
    omega
  apply List.ext_getElem
  · rw [hulen]
    simp only [List.length_append, List.length_replicate]
    omega
  · intro i h1 h2
    rw [hulen] at h1
    simp only [unpackBytes, List.getElem_ofFn]
    have hj : i / 3 < gridWidth payload * gridHeight payload := by
      generalize hA : gridWidth payload * gridHeight payload = A at *
      omega
    have hpd : (packImage payload).data.getD (4 * (i / 3) + i % 3) 0 =
        if 3 * (i / 3) + i % 3 < payload.length
          then payload.getD (3 * (i / 3) + i % 3) 0 else 0 := by
      rw [packImage_data]
      exact packData_getD payload _ (i / 3) (i % 3) hj (by omega)
    rw [hpd, show 3 * (i / 3) + i % 3 = i by omega]
    rcases Nat.lt_or_ge i payload.length with hcase | hcase
    · rw [if_pos hcase, List.getElem_append_left hcase, List.getD_eq_getElem _ _ hcase]
    · rw [if_neg (by omega), List.getElem_append_right hcase]
      simp

/-! ### Parsing an assembled payload -/

theorem SALT_LENGTH_def : SALT_LENGTH = 16 := rfl

theorem IV_LENGTH_def : IV_LENGTH = 12 := rfl

theorem HEADER_LENGTH_def : HEADER_LENGTH = 36 := rfl

theorem length_assemblePayload (salt iv cipher : List Nat) (rate : Nat)
    (hs : salt.length = 16) (hi : iv.length = 12) :
    (assemblePayload salt iv cipher rate).length = 36 + cipher.length := by
  simp [assemblePayload, length_be32, hs, hi]
  omega

theorem parsePayload_assemble (salt iv cipher : List Nat) (rate : Nat) (pad : List Nat)
    (hs : salt.length = 16) (hi : iv.length = 12)
    (hL : cipher.length < 4294967296) (hr : rate < 4294967296) :
    parsePayload (assemblePayload salt iv cipher rate ++ pad) =
      .ok (salt, iv, cipher.length, rate, cipher) := by
  have hblen : (assemblePayload salt iv cipher rate ++ pad).length =
      36 + cipher.length + pad.length := by
    rw [List.length_append, length_assemblePayload salt iv cipher rate hs hi]
  have hsalt : (assemblePayload salt iv cipher rate ++ pad).take 16 = salt := by
    rw [show assemblePayload salt iv cipher rate ++ pad =
      salt ++ (iv ++ (be32 cipher.length ++ (be32 rate ++ (cipher ++ pad)))) from by
        simp [assemblePayload, List.append_assoc]]
    exact List.take_left' hs
  have hiv : ((assemblePayload salt iv cipher rate ++ pad).drop 16).take 12 = iv := by
    rw [show assemblePayload salt iv cipher rate ++ pad =
      salt ++ (iv ++ (be32 cipher.length ++ (be32 rate ++ (cipher ++ pad)))) from by
        simp [assemblePayload, List.append_assoc]]
    rw [List.drop_left' hs]
    exact List.take_left' hi
  have hlen28 : (salt ++ iv).length = 28 := by
    rw [List.length_append, hs, hi]
  have hread28 : readBE32 (assemblePayload salt iv cipher rate ++ pad) 28 =
      cipher.length := by
    rw [show assemblePayload salt iv cipher rate ++ pad =
      (salt ++ iv) ++ (be32 cipher.length ++ (be32 rate ++ (cipher ++ pad))) from by
        simp [assemblePayload, List.append_assoc]]
    rw [← hlen28, readBE32_append_be32]
    exact Nat.mod_eq_of_lt hL
  have hlen32 : ((salt ++ iv) ++ be32 cipher.length).length = 32 := by
    rw [List.length_append, hlen28, length_be32]
  have hread32 : readBE32 (assemblePayload salt iv cipher rate ++ pad) 32 = rate := by
    rw [show assemblePayload salt iv cipher rate ++ pad =
      ((salt ++ iv) ++ be32 cipher.length) ++ (be32 rate ++ (cipher ++ pad)) from by
        simp [assemblePayload, List.append_assoc]]
    rw [← hlen32, readBE32_append_be32]
    exact Nat.mod_eq_of_lt hr
  have hlen36 : (((salt ++ iv) ++ be32 cipher.length) ++ be32 rate).length = 36 := by
    rw [List.length_append, hlen32, length_be32]
  have hcipher : ((assemblePayload salt iv cipher rate ++ pad).drop 36).take cipher.length =
      cipher := by
    rw [show assemblePayload salt iv cipher rate ++ pad =
      (((salt ++ iv) ++ be32 cipher.length) ++ be32 rate) ++ (cipher ++ pad) from by
        simp [assemblePayload, List.append_assoc]]
    rw [List.drop_left' hlen36]
    exact List.take_left' rfl
  simp only [parsePayload, SALT_LENGTH_def, IV_LENGTH_def, HEADER_LENGTH_def,
    CIPHERTEXT_LENGTH_BYTES]
  rw [if_neg (by omega)]
  rw [show (16 : Nat) + 12 = 28 from rfl, show (28 : Nat) + 4 = 32 from rfl]
  rw [hread28, hread32, hsalt, hiv, hcipher]
  rw [if_neg (by omega)]

/-! ### The decrypt pipeline on a packed, assembled image -/

theorem decryptImageToAudio_packImage_assemble (pass : List Char) (hpass : pass ≠ [])
    (salt iv cipher : List Nat) (rate : Nat)
    (hs : salt.length = 16) (hi : iv.length = 12)
    (hL : cipher.length < 4294967296) (hr : rate < 4294967296) :
    decryptImageToAudio pass (packImage (assemblePayload salt iv cipher rate)) =
      match gcmDecrypt (deriveKey pass salt) iv cipher with
      | none => .error "Decryption failed - incorrect key or corrupted data."
      | some raw =>
        if raw.length % 4 ≠ 0 then
          .error "RangeError: byte length of Float32Array should be a multiple of 4"
        else if rate = 0 ∨ 192000 < rate then
          .error "Invalid sample rate in image. Data might be corrupted."
        else if raw.length / 4 = 0 then
          .error "NotSupportedError: cannot create an AudioBuffer with 0 frames"
        else
          .ok (bytesToSamples raw, rate) := by
  simp only [decryptImageToAudio]
  rw [if_neg hpass]
  rw [unpackBytes_packImage]
  rw [parsePayload_assemble salt iv cipher rate _ hs hi hL hr]

theorem decrypt_pipeline_none (pass : List Char) (hpass : pass ≠ [])
    (salt iv cipher : List Nat) (rate : Nat)
    (hs : salt.length = 16) (hi : iv.length = 12)
    (hL : cipher.length < 4294967296) (hr : rate < 4294967296)
    (hdec : gcmDecrypt (deriveKey pass salt) iv cipher = none) :
    decryptImageToAudio pass (packImage (assemblePayload salt iv cipher rate)) =
      .error "Decryption failed - incorrect key or corrupted data." := by
  rw [decryptImageToAudio_packImage_assemble pass hpass salt iv cipher rate hs hi hL hr, hdec]

theorem decrypt_pipeline_some (pass : List Char) (hpass : pass ≠ [])
    (salt iv cipher raw : List Nat) (rate : Nat)
    (hs : salt.length = 16) (hi : iv.length = 12)
    (hL : cipher.length < 4294967296) (hr : rate < 4294967296)
    (hdec : gcmDecrypt (deriveKey pass salt) iv cipher = some raw) :
    decryptImageToAudio pass (packImage (assemblePayload salt iv cipher rate)) =
      (if raw.length % 4 ≠ 0 then
        .error "RangeError: byte length of Float32Array should be a multiple of 4"
      else if rate = 0 ∨ 192000 < rate then
        .error "Invalid sample rate in image. Data might be corrupted."
      else if raw.length / 4 = 0 then
        .error "NotSupportedError: cannot create an AudioBuffer with 0 frames"
      else
        .ok (bytesToSamples raw, rate)) := by
  rw [decryptImageToAudio_packImage_assemble pass hpass salt iv cipher rate hs hi hL hr, hdec]

/-! ### Password strength helper lemmas -/

theorem checkPasswordStrength_score_short {password : List Char}
    (h : password.length < 6) : (checkPasswordStrength password).score = 0 := by
  simp only [checkPasswordStrength]
  rw [if_pos h]

theorem checkPasswordStrength_score_long {password : List Char}
    (h : 6 ≤ password.length) :
    (checkPasswordStrength password).score = passwordScore password := by
  simp only [checkPasswordStrength]
  rw [if_neg (by omega)]
  split_ifs <;> rfl

theorem char_class_total (c : Char) :
    isLowercaseChar c = true ∨ isUppercaseChar c = true ∨ isDigitChar c = true ∨
      isNonAlphanumericChar c = true := by
  by_cases h1 : isLowercaseChar c = true
  · exact Or.inl h1
  by_cases h2 : isUppercaseChar c = true
  · exact Or.inr (Or.inl h2)
  by_cases h3 : isDigitChar c = true
  · exact Or.inr (Or.inr (Or.inl h3))
  refine Or.inr (Or.inr (Or.inr ?_))
  simp only [Bool.not_eq_true] at h1 h2 h3
  simp [isNonAlphanumericChar, h1, h2, h3]

theorem passwordScore_ge_two {password : List Char} (h : 6 ≤ password.length) :
    2 ≤ passwordScore password := by
  have hne : password ≠ [] := by
    intro he
    rw [he] at h
    simp at h
  obtain ⟨c, t, he⟩ := List.exists_cons_of_ne_nil hne
  have hmem : c ∈ password := by rw [he]; exact List.mem_cons_self c t
  have hone : password.any isLowercaseChar = true ∨ password.any isUppercaseChar = true ∨
      password.any isDigitChar = true ∨ password.any isNonAlphanumericChar = true := by
    rcases char_class_total c with hc | hc | hc | hc
    · exact Or.inl (List.any_eq_true.mpr ⟨c, hmem, hc⟩)
    · exact Or.inr (Or.inl (List.any_eq_true.mpr ⟨c, hmem, hc⟩))
    · exact Or.inr (Or.inr (Or.inl (List.any_eq_true.mpr ⟨c, hmem, hc⟩)))
    · exact Or.inr (Or.inr (Or.inr (List.any_eq_true.mpr ⟨c, hmem, hc⟩)))
  unfold passwordScore
  rcases hone with hc | hc | hc | hc <;> rw [if_pos hc] <;> split_ifs <;> omega

theorem checkPasswordStrength_score_ge_two {password : List Char}
    (h : 6 ≤ password.length) : 2 ≤ (checkPasswordStrength password).score := by
  rw [checkPasswordStrength_score_long h]
  exact passwordScore_ge_two h

/-! ### Claim theorems -/

/-- C2: for every 16-byte salt, 12-byte nonce, ciphertext and sample
rate (each 32-bit field in range), the assembled payload has bytes
0-15 = salt, bytes 16-27 = nonce, bytes 28-31 = ciphertext length as
unsigned 32-bit big-endian, bytes 32-35 = sample rate as unsigned
32-bit big-endian, bytes 36 onward = the ciphertext unchanged, and
total length 36 + ciphertext length. -/
theorem C2_payload_layout (salt iv cipher : List Nat) (rate : Nat)
    (hs : salt.length = 16) (hi : iv.length = 12)
    (hL : cipher.length < 4294967296) (hr : rate < 4294967296) :
    (assemblePayload salt iv cipher rate).length = 36 + cipher.length ∧
    (assemblePayload salt iv cipher rate).take 16 = salt ∧
    ((assemblePayload salt iv cipher rate).drop 16).take 12 = iv ∧
    ((assemblePayload salt iv cipher rate).drop 28).take 4 = be32 cipher.length ∧
    readBE32 (assemblePayload salt iv cipher rate) 28 = cipher.length ∧
    ((assemblePayload salt iv cipher rate).drop 32).take 4 = be32 rate ∧
    readBE32 (assemblePayload salt iv cipher rate) 32 = rate ∧
    (assemblePayload salt iv cipher rate).drop 36 = cipher := by
  have e1 : assemblePayload salt iv cipher rate =
      salt ++ (iv ++ (be32 cipher.length ++ (be32 rate ++ cipher))) := by
    simp [assemblePayload, List.append_assoc]
  have hlen28 : (salt ++ iv).length = 28 := by rw [List.length_append, hs, hi]
  have e2 : assemblePayload salt iv cipher rate =
      (salt ++ iv) ++ (be32 cipher.length ++ (be32 rate ++ cipher)) := by
    simp [assemblePayload, List.append_assoc]
  have hlen32 : ((salt ++ iv) ++ be32 cipher.length).length = 32 := by
    rw [List.length_append, hlen28, length_be32]
  have e3 : assemblePayload salt iv cipher rate =
      ((salt ++ iv) ++ be32 cipher.length) ++ (be32 rate ++ cipher) := by
    simp [assemblePayload, List.append_assoc]
  have hlen36 : (((salt ++ iv) ++ be32 cipher.length) ++ be32 rate).length = 36 := by
    rw [List.length_append, hlen32, length_be32]
  have e4 : assemblePayload salt iv cipher rate =
      (((salt ++ iv) ++ be32 cipher.length) ++ be32 rate) ++ cipher := by
    simp [assemblePayload, List.append_assoc]
  refine ⟨length_assemblePayload salt iv cipher rate hs hi, ?_, ?_, ?_, ?_, ?_, ?_, ?_⟩
  · rw [e1]
    exact List.take_left' hs
  · rw [e1, List.drop_left' hs]
    exact List.take_left' hi
  · rw [e2, List.drop_left' hlen28]
    exact List.take_left' (length_be32 _)
  · rw [e2, ← hlen28, readBE32_append_be32]
    exact Nat.mod_eq_of_lt hL
  · rw [e3, List.drop_left' hlen32]
    exact List.take_left' (length_be32 _)
  · rw [e3, ← hlen32, readBE32_append_be32]
    exact Nat.mod_eq_of_lt hr
  · rw [e4]
    exact List.drop_left' hlen36

/-- Witness for C2 at a concrete payload. -/
theorem C2_payload_layout_witness :
    readBE32 (assemblePayload (List.replicate 16 1) (List.replicate 12 2) [9, 9] 44100) 28 =
      ([9, 9] : List Nat).length ∧
    readBE32 (assemblePayload (List.replicate 16 1) (List.replicate 12 2) [9, 9] 44100) 32 =
      44100 ∧
    (assemblePayload (List.replicate 16 1) (List.replicate 12 2) [9, 9] 44100).drop 36 =
      [9, 9] := by
  have h := C2_payload_layout (List.replicate 16 1) (List.replicate 12 2) [9, 9] 44100
    (by decide) (by decide) (by decide) (by decide)
  exact ⟨h.2.2.2.2.1, h.2.2.2.2.2.2.1, h.2.2.2.2.2.2.2⟩

/-- C4: parse fails with a FormatError on a payload shorter than the
36-byte header, and on a payload whose declared ciphertext length plus
the 36-byte header offset exceeds the payload length. -/
theorem C4_parse_bounds :
    (∀ bytes : List Nat, bytes.length < 36 →
      parsePayload bytes = .error "Corrupted data: Image data too short to contain header.") ∧
    (∀ bytes : List Nat, 36 ≤ bytes.length →
      bytes.length < 36 + readBE32 bytes 28 →
      parsePayload bytes =
        .error "Corrupted data: Declared ciphertext length exceeds available data.") := by
  constructor
  · intro bytes h
    simp only [parsePayload, HEADER_LENGTH_def]
    rw [if_pos h]
  · intro bytes h1 h2
    simp only [parsePayload, HEADER_LENGTH_def, SALT_LENGTH_def, IV_LENGTH_def,
      CIPHERTEXT_LENGTH_BYTES]
    rw [if_neg (by omega)]
    rw [show (16 : Nat) + 12 = 28 from rfl]
    rw [if_pos (by omega)]

/-- Witness for C4 at concrete inputs: a 10-byte buffer (header
truncated) and a 40-byte all-255 buffer (declared length 4294967295
overruns). -/
theorem C4_parse_bounds_witness :
    parsePayload (List.replicate 10 0) =
      .error "Corrupted data: Image data too short to contain header." ∧
    parsePayload (List.replicate 40 255) =
      .error "Corrupted data: Declared ciphertext length exceeds available data." := by
  constructor
  · exact C4_parse_bounds.1 (List.replicate 10 0) (by decide)
  · exact C4_parse_bounds.2 (List.replicate 40 255) (by decide) (by decide)

/-- C6: pack chooses width = ceil(sqrt(ceil(N/3))) and
height = ceil(requiredPixels/width), has capacity width*height*3 ≥ N,
and unpack returns a buffer of length width*height*3 whose first N
bytes are the original payload. -/
theorem C6_pixel_capacity (payload : List Nat) :
    (packImage payload).width = ceilSqrt (numPixelsRequired payload.length) ∧
    (packImage payload).height =
      (numPixelsRequired payload.length + ((packImage payload).width - 1)) /
        (packImage payload).width ∧
    payload.length ≤ (packImage payload).width * (packImage payload).height * 3 ∧
    (unpackBytes (packImage payload)).length =
      (packImage payload).width * (packImage payload).height * 3 ∧
    (unpackBytes (packImage payload)).take payload.length = payload := by
  refine ⟨rfl, rfl, ?_, ?_, ?_⟩
  · rw [packImage_width, packImage_height]
    exact packImage_capacity payload
  · rw [length_unpackBytes, packImage_data_length, packImage_width, packImage_height]
    generalize gridWidth payload * gridHeight payload = A
    omega
  · rw [unpackBytes_packImage]
    exact List.take_left' rfl

/-- Counterexample to C7 as stated: a 7-byte payload needs 3 pixels
and gets a 2-by-2 grid, and the fourth pixel (beyond the break in the
packing loop) has Alpha 0, not 255. -/
theorem C7_alpha_counterexample :
    (packImage (List.replicate 7 0)).width * (packImage (List.replicate 7 0)).height = 4 ∧
    (packImage (List.replicate 7 0)).data.getD (4 * 3 + 3) 0 = 0 := by
  constructor
  · decide
  · decide

/-- C7 (amended): payload bytes go in order into R, G, B of each pixel
row-major with zero fill past the payload, and Alpha is 255 exactly
for the first `numPixelsRequired` pixels; pixels after the loop's
break keep Alpha 0. -/
theorem C7_pack_layout (payload : List Nat) (j : Nat)
    (hj : j < gridWidth payload * gridHeight payload) :
    (∀ c, c < 3 → (packImage payload).data.getD (4 * j + c) 0 =
      (if 3 * j + c < payload.length then payload.getD (3 * j + c) 0 else 0)) ∧
    (packImage payload).data.getD (4 * j + 3) 0 =
      (if j < numPixelsRequired payload.length then 255 else 0) := by
  constructor
  · intro c hc
    rw [packImage_data]
    exact packData_getD payload _ j c hj hc
  · rw [packImage_data]
    exact packData_alpha_getD payload _ j hj

/-- Witness for C7's amended statement at a concrete payload. -/
theorem C7_pack_layout_witness :
    (packImage [1, 2, 3, 4]).data.getD (4 * 1 + 2) 0 = 0 ∧
    (packImage [1, 2, 3, 4]).data.getD (4 * 1 + 3) 0 = 255 := by
  have h := C7_pack_layout [1, 2, 3, 4] 1 (by decide)
  constructor
  · rw [h.1 2 (by decide)]
    decide
  · rw [h.2]
    decide

/-- C8: strength scoring: below 6 characters gives TooShort with
numeric 0; otherwise the score is 1 plus one point per satisfied
criterion (length ≥ 12, lowercase, uppercase, digit,
non-alphanumeric); the level is Weak below 2, Medium below 5, Strong
otherwise; and encryption succeeds exactly when the score is at
least 2. -/
theorem C8_strength_policy (password : List Char) :
    (password.length < 6 →
      checkPasswordStrength password = ⟨0, "Too Short", "weak"⟩) ∧
    (6 ≤ password.length →
      (checkPasswordStrength password).score =
        1 + (if 12 ≤ password.length then 1 else 0)
          + (if password.any isLowercaseChar then 1 else 0)
          + (if password.any isUppercaseChar then 1 else 0)
          + (if password.any isDigitChar then 1 else 0)
          + (if password.any isNonAlphanumericChar then 1 else 0)) ∧
    (6 ≤ password.length →
      (checkPasswordStrength password).text =
        (if (checkPasswordStrength password).score < 2 then "Weak"
         else if (checkPasswordStrength password).score < 5 then "Medium"
         else "Strong")) ∧
    (∀ (samples : List Nat) (rate : Nat) (salt iv : List Nat),
      (∃ g, encryptAudioToImage password samples rate salt iv = Except.ok g) ↔
        2 ≤ (checkPasswordStrength password).score) := by
  refine ⟨?_, ?_, ?_, ?_⟩
  · intro h
    simp only [checkPasswordStrength]
    rw [if_pos h]
  · intro h
    rw [checkPasswordStrength_score_long h]
    rfl
  · intro h
    rw [checkPasswordStrength_score_long h]
    simp only [checkPasswordStrength]
    rw [if_neg (by omega)]
    split_ifs with h1 h2 <;> rfl
  · intro samples rate salt iv
    constructor
    · rintro ⟨g, hg⟩
      by_contra hlt
      simp only [encryptAudioToImage] at hg
      split at hg
      · simp at hg
      · split at hg
        · simp at hg
        · omega
    · intro hscore
      have hlen : 6 ≤ password.length := by
        by_contra hshort
        rw [checkPasswordStrength_score_short (by omega)] at hscore
        omega
      have hpass : password ≠ [] := by
        intro he
        rw [he] at hlen
        simp at hlen
      refine ⟨packImage (assemblePayload salt iv
        (gcmEncrypt (deriveKey password salt) iv (samplesToBytes samples)) rate), ?_⟩
      simp only [encryptAudioToImage]
      rw [if_neg hpass, if_neg (by omega)]

/-- Witness for C8 at the concrete password "abc123" (score 3,
Medium), including a successful encryption. -/
theorem C8_strength_policy_witness :
    (checkPasswordStrength ['a', 'b', 'c', '1', '2', '3']).score = 3 ∧
    (checkPasswordStrength ['a', 'b', 'c', '1', '2', '3']).text = "Medium" ∧
    (∃ g, encryptAudioToImage ['a', 'b', 'c', '1', '2', '3'] [0] 44100
      (List.replicate 16 0) (List.replicate 12 0) = Except.ok g) := by
  have h := C8_strength_policy ['a', 'b', 'c', '1', '2', '3']
  refine ⟨?_, ?_, ?_⟩
  · rw [h.2.1 (by decide)]
    decide
  · rw [h.2.2.1 (by decide)]
    decide
  · exact (h.2.2.2 [0] 44100 (List.replicate 16 0) (List.replicate 12 0)).mpr (by decide)

/-- Counterexample to C9's concrete arithmetic: 44100 samples give a
payload of 36 + 44100*4 + 16 = 176452 bytes (not 176532), needing
ceil(176452/3) = 58818 pixels (not 58844); the spec multiplied
44100 * 4 as 176480. -/
theorem C9_concrete_counterexample :
    (assemblePayload (List.replicate 16 0) (List.replicate 12 0)
      (gcmEncrypt (deriveKey ['a'] (List.replicate 16 0)) (List.replicate 12 0)
        (samplesToBytes (List.replicate 44100 0))) 44100).length = 176452 ∧
    (176452 : Nat) ≠ 176532 ∧
    numPixelsRequired 176452 = 58818 := by
  refine ⟨?_, by decide, by decide⟩
  rw [length_assemblePayload _ _ _ _ (by simp) (by simp), length_gcmEncrypt,
    length_samplesToBytes, List.length_replicate]

/-- C9 (amended): AES-GCM output is plaintext length plus the fixed
16-byte tag, so the payload for n samples has exactly 36 + 4n + 16
bytes; for 44100 samples that is 176452 bytes and
ceil(176452/3) = 58818 pixels. -/
theorem C9_payload_length :
    (∀ (key : Key) (iv p : List Nat), (gcmEncrypt key iv p).length = p.length + 16) ∧
    (∀ (salt iv : List Nat) (key : Key) (samples : List Nat) (rate : Nat),
      salt.length = 16 → iv.length = 12 →
      (assemblePayload salt iv (gcmEncrypt key iv (samplesToBytes samples)) rate).length =
        36 + 4 * samples.length + 16) ∧
    (36 + 44100 * 4 + 16 = 176452 ∧ numPixelsRequired 176452 = 58818) := by
  refine ⟨length_gcmEncrypt, ?_, by decide⟩
  intro salt iv key samples rate hs hi
  rw [length_assemblePayload salt iv _ rate hs hi, length_gcmEncrypt,
    length_samplesToBytes]
  omega

/-- Witness for C9 at a concrete two-sample encryption. -/
theorem C9_payload_length_witness :
    (assemblePayload (List.replicate 16 0) (List.replicate 12 0)
      (gcmEncrypt (deriveKey ['a'] (List.replicate 16 0)) (List.replicate 12 0)
        (samplesToBytes [0, 1])) 44100).length = 36 + 4 * 2 + 16 := by
  have h := C9_payload_length.2.1 (List.replicate 16 0) (List.replicate 12 0)
    (deriveKey ['a'] (List.replicate 16 0)) [0, 1] 44100 (by decide) (by decide)
  exact h.trans (by decide)

/-- C10 (implicit): the numeric score is never 1: it is 0 for
passwords shorter than 6 characters and at least 2 otherwise (every
character falls in one of the four bonus classes), so the encryption
gate score < 2 rejects exactly the too-short passwords. -/
theorem C10_score_never_one (password : List Char) :
    (checkPasswordStrength password).score ≠ 1 ∧
    (password.length < 6 → (checkPasswordStrength password).score = 0) ∧
    (6 ≤ password.length → 2 ≤ (checkPasswordStrength password).score) ∧
    ((checkPasswordStrength password).score < 2 ↔ password.length < 6) ∧
    (checkPasswordStrength password).text ≠ "Weak" := by
  rcases Nat.lt_or_ge password.length 6 with hlen | hlen
  · have h0 := checkPasswordStrength_score_short hlen
    refine ⟨by omega, fun _ => h0, fun h => by omega, by omega, ?_⟩
    simp only [checkPasswordStrength]
    rw [if_pos hlen]
    simp
  · have h2 := checkPasswordStrength_score_ge_two hlen
    refine ⟨by omega, fun h => by omega, fun _ => h2, by omega, ?_⟩
    have hps := passwordScore_ge_two hlen
    simp only [checkPasswordStrength]
    rw [if_neg (by omega), if_neg (by omega)]
    split_ifs <;> simp

/-- Witness for C10 at two concrete passwords (one long, one short). -/
theorem C10_score_never_one_witness :
    2 ≤ (checkPasswordStrength ['&', '&', '&', '&', '&', '&']).score ∧
    (checkPasswordStrength ['a', 'b']).score = 0 := by
  constructor
  · exact (C10_score_never_one ['&', '&', '&', '&', '&', '&']).2.2.1 (by decide)
  · exact (C10_score_never_one ['a', 'b']).2.1 (by decide)

/-- C1: for a single-channel sample buffer (32-bit patterns), a sample
rate in (0, 192000] and a passphrase of strength score at least 2, the
full encrypt pipeline (derive key, AES-GCM encrypt, assemble the
36-byte header plus ciphertext, pack into pixels) followed by the full
decrypt pipeline with the same passphrase returns the original samples
bit-for-bit and the original sample rate. -/
theorem C1_round_trip (pass : List Char) (samples : List Nat) (rate : Nat)
    (salt iv : List Nat)
    (hscore : 2 ≤ (checkPasswordStrength pass).score)
    (hrate0 : 0 < rate) (hrate1 : rate ≤ 192000)
    (hs : salt.length = 16) (hi : iv.length = 12)
    (hsamples : ∀ s ∈ samples, s < 4294967296)
    (hne : samples ≠ [])
    (hn : 4 * samples.length + 16 < 4294967296) :
    encryptAudioToImage pass samples rate salt iv =
      Except.ok (packImage (assemblePayload salt iv
        (gcmEncrypt (deriveKey pass salt) iv (samplesToBytes samples)) rate)) ∧
    decryptImageToAudio pass
      (packImage (assemblePayload salt iv
        (gcmEncrypt (deriveKey pass salt) iv (samplesToBytes samples)) rate)) =
      Except.ok (samples, rate) := by
  have hlen6 : 6 ≤ pass.length := by
    by_contra hshort
    rw [checkPasswordStrength_score_short (by omega)] at hscore
    omega
  have hpass : pass ≠ [] := by
    intro he
    rw [he] at hlen6
    simp at hlen6
  have hclen : (gcmEncrypt (deriveKey pass salt) iv (samplesToBytes samples)).length =
      4 * samples.length + 16 := by
    rw [length_gcmEncrypt, length_samplesToBytes]
  constructor
  · simp only [encryptAudioToImage]
    rw [if_neg hpass, if_neg (by omega)]
  · rw [decrypt_pipeline_some pass hpass salt iv
      (gcmEncrypt (deriveKey pass salt) iv (samplesToBytes samples))
      (samplesToBytes samples) rate hs hi (by omega) (by omega)
      (gcmDecrypt_gcmEncrypt _ _ _)]
    have hslen : (samplesToBytes samples).length = 4 * samples.length :=
      length_samplesToBytes samples
    have hpos : 0 < samples.length := List.length_pos.mpr hne
    rw [if_neg (by omega), if_neg (by omega), if_neg (by omega)]
    rw [bytesToSamples_samplesToBytes samples hsamples]

/-- Witness for C1: a concrete three-sample round trip. -/
theorem C1_round_trip_witness :
    decryptImageToAudio ['a', 'b', 'c', '1', '2', '3']
      (packImage (assemblePayload (List.replicate 16 5) (List.replicate 12 7)
        (gcmEncrypt (deriveKey ['a', 'b', 'c', '1', '2', '3'] (List.replicate 16 5))
          (List.replicate 12 7) (samplesToBytes [0, 4294967295, 12345])) 44100)) =
      Except.ok ([0, 4294967295, 12345], 44100) :=
  (C1_round_trip ['a', 'b', 'c', '1', '2', '3'] [0, 4294967295, 12345] 44100
    (List.replicate 16 5) (List.replicate 12 7) (by decide) (by decide) (by decide)
    (by decide) (by decide) (by decide) (by decide) (by decide)).2

/-- C3: authenticated decryption returns a plaintext only for the
authentic ciphertext of that (key, nonce) pair (never garbage);
flipping any single byte, truncating, or decrypting under a different
key or nonce yields AuthenticationFailure (`none`). -/
theorem C3_authentication :
    (∀ (key : Key) (iv c p : List Nat),
      gcmDecrypt key iv c = some p → c = gcmEncrypt key iv p) ∧
    (∀ (key : Key) (iv p : List Nat) (i b : Nat),
      i < (gcmEncrypt key iv p).length → b ≠ (gcmEncrypt key iv p).getD i 0 →
      gcmDecrypt key iv ((gcmEncrypt key iv p).set i b) = none) ∧
    (∀ (key : Key) (iv p : List Nat) (m : Nat),
      m < (gcmEncrypt key iv p).length → (∀ x ∈ p, x < 256) →
      gcmDecrypt key iv ((gcmEncrypt key iv p).take m) = none) ∧
    (∀ (k1 k2 : Key) (n1 n2 p : List Nat), k1 ≠ k2 ∨ n1 ≠ n2 →
      gcmDecrypt k2 n2 (gcmEncrypt k1 n1 p) = none) :=
  ⟨fun _ _ _ _ h => gcmDecrypt_sound h,
   fun key iv p i b h1 h2 => gcmDecrypt_flip key iv p i b h1 h2,
   fun key iv p m h1 h2 => gcmDecrypt_truncate key iv p m h1 h2,
   fun k1 k2 n1 n2 p h => gcmDecrypt_wrong_key k1 k2 n1 n2 p h⟩

/-- Witness for C3: a concrete byte flip, truncation, and wrong-key
decryption all fail. -/
theorem C3_authentication_witness :
    gcmDecrypt (deriveKey ['a'] [0]) [1]
      ((gcmEncrypt (deriveKey ['a'] [0]) [1] [5, 6]).set 0 7) = none ∧
    gcmDecrypt (deriveKey ['a'] [0]) [1]
      ((gcmEncrypt (deriveKey ['a'] [0]) [1] [5, 6]).take 17) = none ∧
    gcmDecrypt (deriveKey ['b'] [0]) [1]
      (gcmEncrypt (deriveKey ['a'] [0]) [1] [5, 6]) = none := by
  refine ⟨?_, ?_, ?_⟩
  · exact C3_authentication.2.1 (deriveKey ['a'] [0]) [1] [5, 6] 0 7 (by decide) (by decide)
  · exact C3_authentication.2.2.1 (deriveKey ['a'] [0]) [1] [5, 6] 17 (by decide) (by decide)
  · exact C3_authentication.2.2.2 (deriveKey ['a'] [0]) (deriveKey ['b'] [0]) [1] [1] [5, 6]
      (Or.inl (by decide))

/-- Counterexample to C5 as stated: a payload whose SampleRate field
is 0 parses successfully (parse does not check the rate), and
decrypting it with a key that fails authentication reports the
decryption failure, not the sample-rate FormatError - so the
out-of-range rate is NOT rejected before key derivation and
authenticated decryption. -/
theorem C5_order_counterexample :
    parsePayload (unpackBytes (packImage (assemblePayload (List.replicate 16 0)
      (List.replicate 12 0) (List.replicate 16 0) 0))) =
      Except.ok (List.replicate 16 0, List.replicate 12 0, 16, 0, List.replicate 16 0) ∧
    decryptImageToAudio ['a'] (packImage (assemblePayload (List.replicate 16 0)
      (List.replicate 12 0) (List.replicate 16 0) 0)) =
      Except.error "Decryption failed - incorrect key or corrupted data." := by
  constructor
  · decide
  · decide

/-- C5 (amended): a payload whose SampleRate field is 0 or exceeds
192000 is rejected with the sample-rate FormatError, but only after
key derivation and authenticated decryption succeed; with a wrong
passphrase the same payload reports AuthenticationFailure instead,
because the rate check runs after decryption. -/
theorem C5_rate_check_after_decrypt (pass : List Char) (hpass : pass ≠ [])
    (salt iv plaintext : List Nat) (rate : Nat)
    (hs : salt.length = 16) (hi : iv.length = 12)
    (hL : plaintext.length + 16 < 4294967296) (hr : rate < 4294967296)
    (hbad : rate = 0 ∨ 192000 < rate) (hmul : plaintext.length % 4 = 0) :
    decryptImageToAudio pass (packImage (assemblePayload salt iv
      (gcmEncrypt (deriveKey pass salt) iv plaintext) rate)) =
      Except.error "Invalid sample rate in image. Data might be corrupted." ∧
    (∀ pass2 : List Char, pass2 ≠ [] → pass2 ≠ pass →
      decryptImageToAudio pass2 (packImage (assemblePayload salt iv
        (gcmEncrypt (deriveKey pass salt) iv plaintext) rate)) =
        Except.error "Decryption failed - incorrect key or corrupted data.") := by
  have hclen : (gcmEncrypt (deriveKey pass salt) iv plaintext).length =
      plaintext.length + 16 := length_gcmEncrypt _ _ _
  constructor
  · rw [decrypt_pipeline_some pass hpass salt iv
      (gcmEncrypt (deriveKey pass salt) iv plaintext) plaintext rate hs hi
      (by omega) (by omega) (gcmDecrypt_gcmEncrypt _ _ _)]
    rw [if_neg (by omega), if_pos hbad]
  · intro pass2 hp2 hne
    have hdec : gcmDecrypt (deriveKey pass2 salt) iv
        (gcmEncrypt (deriveKey pass salt) iv plaintext) = none := by
      apply gcmDecrypt_wrong_key
      left
      intro he
      exact hne (congrArg Prod.fst he).symm
    rw [decrypt_pipeline_none pass2 hp2 salt iv
      (gcmEncrypt (deriveKey pass salt) iv plaintext) rate hs hi
      (by omega) (by omega) hdec]

/-- Witness for C5's amended statement at a concrete payload with
SampleRate 0. -/
theorem C5_rate_check_after_decrypt_witness :
    decryptImageToAudio ['a'] (packImage (assemblePayload (List.replicate 16 0)
      (List.replicate 12 0) (gcmEncrypt (deriveKey ['a'] (List.replicate 16 0))
        (List.replicate 12 0) [1, 2, 3, 4]) 0)) =
      Except.error "Invalid sample rate in image. Data might be corrupted." ∧
    decryptImageToAudio ['b'] (packImage (assemblePayload (List.replicate 16 0)
      (List.replicate 12 0) (gcmEncrypt (deriveKey ['a'] (List.replicate 16 0))
        (List.replicate 12 0) [1, 2, 3, 4]) 0)) =
      Except.error "Decryption failed - incorrect key or corrupted data." := by
  have h := C5_rate_check_after_decrypt ['a'] (by decide) (List.replicate 16 0)
    (List.replicate 12 0) [1, 2, 3, 4] 0 (by decide) (by decide) (by decide)
    (by decide) (Or.inl rfl) (by decide)
  exact ⟨h.1, h.2 ['b'] (by decide) (by decide)⟩

end AudioEncrypt
